import Mathlib

/-!
# ImageModify backend — verification of the badge compositor and API layer

Shallow embedding of the parts of the repository the specification's claims
are about:

* `modules/image_composer.py` — `get_contrast_color`, `split_two_lines` and
  the font-selection fragment of `compose_image`;
* `modules/badge_shapes.py` — `get_polygon_for_shape`;
* `modules/processor.py` — `process_sheet`;
* `app/database.py` — `_generate_api_key`, `create_user`,
  `regenerate_api_key`, `increment_usage`;
* `app/main.py` / `app/integrations/automation_client.py` —
  `automation_run`, `trigger_automation`.

Pixel widths of rendered text (PIL's `draw.textlength`) are modelled as an
abstract width function `String → Nat`; fonts enter the model only through
their width function.  Python strings are modelled as Lean `String`s, with
the handful of library operations the code uses (`str.split(" ")`,
`str.strip()`, `str.replace("#", "")`, `str.lower()`, `int(_, 16)`)
re-implemented below on `List Char` so that every definition reduces in the
kernel.
-/

namespace ImageModify

/-! ## Python string primitives -/

/-- Python's whitespace test, for `str.strip()` and `int(s, 16)` (the ASCII
part of Python's definition: space, TAB, LF, VT, FF, CR). -/
def isPySpace (c : Char) : Bool :=
  c.toNat = 32 || c.toNat = 9 || c.toNat = 10 || c.toNat = 11 ||
    c.toNat = 12 || c.toNat = 13

/-- Python `str.strip()` on the character list: drop whitespace from both ends. -/
def pyStrip (cs : List Char) : List Char :=
  ((cs.dropWhile isPySpace).reverse.dropWhile isPySpace).reverse

/-- Python `str.strip()` on strings. -/
def pyStripS (s : String) : String :=
  String.mk (pyStrip s.data)

/-- Python `text.split(" ")`, splitting at every single space; consecutive
separators produce empty pieces, and the empty string yields `[""]`,
exactly as in Python. -/
def splitSpaceAux : List Char → List Char → List String
  | [], acc => [String.mk acc.reverse]
  | c :: cs, acc =>
    if c.toNat = 32 then String.mk acc.reverse :: splitSpaceAux cs []
    else splitSpaceAux cs (c :: acc)

/-- Python `text.split(" ")` on strings. -/
def pySplitSpace (s : String) : List String :=
  splitSpaceAux s.data []

/-- Python `str.lower()` on one character (ASCII range). -/
def pyLowerChar (c : Char) : Char :=
  if 65 ≤ c.toNat ∧ c.toNat ≤ 90 then Char.ofNat (c.toNat + 32) else c

/-- Python `str.lower()` on strings (ASCII range; the shape names are ASCII). -/
def pyLower (s : String) : String :=
  String.mk (s.data.map pyLowerChar)

/-! ## Python `int(s, 16)` -/

/-- The value of one hexadecimal digit (`0-9`, `a-f`, `A-F`), by character
code; `none` for any other character. -/
def hexVal? (c : Char) : Option Nat :=
  if 48 ≤ c.toNat ∧ c.toNat ≤ 57 then some (c.toNat - 48)
  else if 97 ≤ c.toNat ∧ c.toNat ≤ 102 then some (c.toNat - 87)
  else if 65 ≤ c.toNat ∧ c.toNat ≤ 70 then some (c.toNat - 55)
  else none

/-- Hexadecimal digit run as `int(s, 16)` reads it after sign and prefix:
at least one digit, a single underscore allowed only between two digits.
The accumulator is `some v` once a digit has been read. -/
def hexDigitsVal : List Char → Option Nat → Option Nat
  | [], acc => acc
  | c :: cs, acc =>
    match hexVal? c with
    | some v => hexDigitsVal cs (some (acc.getD 0 * 16 + v))
    | none =>
      if c.toNat = 95 then
        match acc, cs with
        | some a, d :: cs2 =>
          match hexVal? d with
          | some v => hexDigitsVal cs2 (some (a * 16 + v))
          | none => none
        | _, _ => none
      else none

/-- Leading sign of an integer literal: `-` or `+` or nothing. -/
def pySign : List Char → Int × List Char
  | [] => (1, [])
  | c :: r =>
    if c.toNat = 45 then (-1, r)
    else if c.toNat = 43 then (1, r)
    else (1, c :: r)

/-- Optional `0x` / `0X` prefix of a base-16 literal. -/
def py0x : List Char → List Char
  | c0 :: c1 :: r =>
    if c0.toNat = 48 ∧ (c1.toNat = 120 ∨ c1.toNat = 88) then r
    else c0 :: c1 :: r
  | l => l

/-- Python's `int(s, 16)`: optional surrounding whitespace, optional sign,
optional `0x`/`0X` prefix, then hexadecimal digits.  `none` models
`ValueError`. -/
def pyIntHex (cs : List Char) : Option Int :=
  let t := pyStrip cs
  let sr := pySign t
  match hexDigitsVal (py0x sr.2) none with
  | some v => some (sr.1 * (v : Int))
  | none => none

/-! ## `modules/image_composer.py` — `get_contrast_color` -/

/-- Function `get_contrast_color(hex_color)` of `image_composer.py`: remove every `#` (`str.replace`),
demand six remaining characters, read three two-character components with
`int(_, 16)` (the bare `except` turns any parse failure into `"white"`),
then compare the weighted brightness `(r*299 + g*587 + b*114) / 1000`
with 160.  The division is written here in the equivalent divide-free
integer form `r*299 + g*587 + b*114 > 160000`: Python evaluates the
quotient in binary floating point, and for every integer numerand `n`
reachable here (`|n| ≤ 255000`) the float comparison `n / 1000 > 160`
agrees with `n > 160000` (`160000 / 1000` is exactly `160.0`, and away
from `160000` the quotient is at distance at least `1/1000` from `160`,
far above the rounding error). -/
def get_contrast_color (hex_color : String) : String :=
  let cs := hex_color.data.filter (fun c => c.toNat != 35)
  if cs.length ≠ 6 then "white"
  else
    match pyIntHex (cs.take 2), pyIntHex ((cs.drop 2).take 2),
        pyIntHex ((cs.drop 4).take 2) with
    | some r, some g, some b =>
      if r * 299 + g * 587 + b * 114 > 160000 then "black"
      else "white"
    | _, _, _ => "white"

/-- Predicate: `hex_color` consists, once every `#` is removed, of exactly six
hexadecimal digits. -/
def sixHexAfterHash (s : String) : Bool :=
  let cs := s.data.filter (fun c => c.toNat != 35)
  cs.length == 6 && cs.all (fun c => (hexVal? c).isSome)

/-! ## `modules/image_composer.py` — `split_two_lines` and font choice

`draw.textlength(s, font)` is modelled by an abstract width function
`width : String → Nat`; a font is present in the model only through its
width function. -/

/-- The body of the word loop shared by `split_two_lines` and the
uncapped reference wrap: `test = (current + " " + w).strip()`; grow the
current line while `test` still fits, otherwise close the current line
(when non-empty, `if current:`) and start a new one with the overflowing
word. -/
def wrapStep (width : String → Nat) (maxWidth : Nat) (lines : List String)
    (current w : String) : List String × String :=
  let test := pyStripS (current ++ " " ++ w)
  if width test ≤ maxWidth then (lines, test)
  else if current = "" then (lines, w)
  else (lines ++ [current], w)

/-- The for-loop of `split_two_lines`, one `wrapStep` per word, stopping as
soon as two lines have been closed (`if len(lines) == 2: break`), leaving
the pending `current` and all remaining words behind. -/
def splitLoop (width : String → Nat) (maxWidth : Nat) :
    List String → List String → String → List String × String
  | [], lines, current => (lines, current)
  | w :: ws, lines, current =>
    let st := wrapStep width maxWidth lines current w
    if st.1.length = 2 then st
    else splitLoop width maxWidth ws st.1 st.2

/-- Function `split_two_lines(draw, text, font, max_width)`: split on single spaces,
run the greedy loop capped at two lines, flush the pending line when fewer
than two lines were closed, and return at most the first two lines. -/
def split_two_lines (width : String → Nat) (text : String) (maxWidth : Nat) :
    List String :=
  let r := splitLoop width maxWidth (pySplitSpace text) [] ""
  let lines := if r.2 ≠ "" ∧ r.1.length < 2 then r.1 ++ [r.2] else r.1
  lines.take 2

/-- The same greedy loop without the two-line cap: the reference
word-accumulation wrap of spec §4.2 (and of `composer_utils.wrap_text`),
which keeps closing lines for as long as words remain. -/
def greedyLoop (width : String → Nat) (maxWidth : Nat) :
    List String → List String → String → List String × String
  | [], lines, current => (lines, current)
  | w :: ws, lines, current =>
    let st := wrapStep width maxWidth lines current w
    greedyLoop width maxWidth ws st.1 st.2

/-- Uncapped greedy wrap: every word of the text ends up on some line. -/
def greedy_wrap (width : String → Nat) (text : String) (maxWidth : Nat) :
    List String :=
  let r := greedyLoop width maxWidth (pySplitSpace text) [] ""
  if r.2 ≠ "" then r.1 ++ [r.2] else r.1

/-- Constant `BADGE_SIZE` of `image_composer.py`. -/
def BADGE_SIZE : Nat := 200

/-- The badge's usable text width in `compose_image`:
`max_w = badge_size * 0.75` with `badge_size = BADGE_SIZE = 200`. -/
def max_w : Nat := 150

/-- The font-selection fragment of `compose_image` (step 4): wrap the price
text with the main font (size 70); if that yields two lines, re-wrap with
the small font (size 50).  The two fonts are given by their width metric.
Returns (whether the small font was chosen, the lines drawn). -/
def compose_price_layout (widthMain widthSmall : String → Nat)
    (price_text : String) : Bool × List String :=
  let lines := split_two_lines widthMain price_text max_w
  let useSmall := lines.length == 2
  let use_width := if useSmall then widthSmall else widthMain
  (useSmall, split_two_lines use_width price_text max_w)

/-! ## `modules/badge_shapes.py` — `get_polygon_for_shape`

`math.cos` / `math.sin` and `math.pi` are modelled by abstract functions
`cosf sinf : ℚ → ℚ` and an abstract constant `pi : ℚ` (float arithmetic is
idealised as exact rational arithmetic); coordinates are rationals. -/

/-- The shape descriptions `get_polygon_for_shape` returns:
`("circle", (cx, cy, r))`, `("polygon", points)` or `("none", None)`. -/
inductive ShapeData where
  | circle (cx cy r : Int)
  | polygon (points : List (ℚ × ℚ))
  | noShape
deriving DecidableEq

/-- Function `get_polygon_for_shape(shape_type, x, y, size)`: case-insensitive match
on the shape name; `starburst_15` builds 30 vertices, alternating outer
radius `size * 0.5` and inner radius `size * 0.35`, at angles
`(i / 30) * 2 * pi`; an unknown name falls back to the circle.
`//` is Python's floor division (`Int.fdiv`). -/
def get_polygon_for_shape (cosf sinf : ℚ → ℚ) (pi : ℚ) (shape_type : String)
    (x y size : Int) : ShapeData :=
  if pyLower shape_type = "circle" then
    ShapeData.circle (x + size.fdiv 2) (y + size.fdiv 2) (size.fdiv 2)
  else if pyLower shape_type = "starburst_15" then
    let center_x := x + size.fdiv 2
    let center_y := y + size.fdiv 2
    ShapeData.polygon ((List.range 30).map (fun (i : Nat) =>
      let angle : ℚ := ((i : ℚ) / 30) * 2 * pi
      let r : ℚ :=
        if i % 2 = 0 then (size : ℚ) * (1 / 2) else (size : ℚ) * (35 / 100)
      ((center_x : ℚ) + r * cosf angle, (center_y : ℚ) + r * sinf angle)))
  else if pyLower shape_type = "none" then ShapeData.noShape
  else ShapeData.circle (x + size.fdiv 2) (y + size.fdiv 2) (size.fdiv 2)

/-! ## `modules/processor.py` — `process_sheet`

A sheet row is modelled by the two fields the loop reads (`row[0]`, the
image URL, and `row[1]`, the price text; `get_all_values` returns
rectangular rows).  The sheet side effects are returned as two lists, in
order: the `compose_image` invocations and the `update_cell` writes.
`compose_image` or `update_cell` raising on row `i` is modelled by the
oracles `composeFails i` / `updateFails i`; the `try/except` swallows
either (logging ignored) and the loop continues. -/

structure SheetRow where
  imageUrl : String
  priceText : String
deriving DecidableEq

/-- One recorded call of `compose_image` (the keyword arguments passed by
`process_sheet`), tagged with the 1-based row it was made for. -/
structure ComposeCall where
  rowIndex : Nat
  imagePath : String
  priceText : String
  outputPath : String
deriving DecidableEq

/-- One recorded `sheet.update_cell(row, col, value)`. -/
structure CellWrite where
  rowIndex : Nat
  col : Nat
  value : String
deriving DecidableEq

/-- Constant `OUTPUT_COL` of `processor.py`. -/
def OUTPUT_COL : Nat := 3

/-- The row loop of `process_sheet`, from 1-based row index `i`:
skip rows with an empty image URL; otherwise call `compose_image` with the
per-row output path `images/edited/edited_<i>.png`; on success write the
public URL `<BASE_URL>/images/edited/edited_<i>.png` into column 3; any
exception from either step is caught and the loop continues. -/
def process_rows (composeFails updateFails : Nat → Bool) (base_url : String) :
    List SheetRow → Nat → List ComposeCall × List CellWrite
  | [], _ => ([], [])
  | row :: rest, i =>
    let r := process_rows composeFails updateFails base_url rest (i + 1)
    if row.imageUrl = "" then r
    else
      let output_filename := "edited_" ++ toString i ++ ".png"
      let output_path := "images/edited/" ++ output_filename
      let call : ComposeCall := ⟨i, row.imageUrl, row.priceText, output_path⟩
      if composeFails i then (call :: r.1, r.2)
      else if updateFails i then (call :: r.1, r.2)
      else
        let public_url := base_url ++ "/images/edited/" ++ output_filename
        (call :: r.1, (⟨i, OUTPUT_COL, public_url⟩ : CellWrite) :: r.2)

/-- Function `process_sheet(sheet, BASE_URL)`: run the row loop over
`sheet.get_all_values()` with row indices starting at 1. -/
def process_sheet (composeFails updateFails : Nat → Bool)
    (rows : List SheetRow) (base_url : String) :
    List ComposeCall × List CellWrite :=
  process_rows composeFails updateFails base_url rows 1

/-! ## `app/database.py` and `app/main.py` — users, API keys, usage

The user table is modelled as a list of rows; SQLAlchemy's
`query(...).filter(...).first()` is `List.find?`.  `secrets.token_hex(24)`
is modelled by an abstract candidate stream `cands : Nat → String`
(successive draws of the generator), and `_generate_api_key`'s unbounded
`while True` retry loop carries explicit fuel: `none` stands for the loop
not having returned within `fuel` draws (Python would still be looping),
never for an error surfaced to the caller. -/

/-- One row of the `users` table (the columns the claims touch). -/
structure DBUser where
  email : String
  hashed_password : String
  api_key : String
  monthly_edits : Nat
  total_edits : Nat
deriving DecidableEq

/-- The retry loop of `_generate_api_key`, drawing candidate `i` next. -/
def genKeyAux (cands : Nat → String) (db : List DBUser) :
    Nat → Nat → Option String
  | _, 0 => none
  | i, fuel + 1 =>
    let key := cands i
    if db.any (fun u => u.api_key == key) then genKeyAux cands db (i + 1) fuel
    else some key

/-- Function `_generate_api_key(session)` (the leading underscore is
dropped here): draw keys until one collides with no
existing row's `api_key`. -/
def generate_api_key (cands : Nat → String) (db : List DBUser)
    (fuel : Nat) : Option String :=
  genKeyAux cands db 0 fuel

/-- Function `create_user(email, password)`: reject an existing email
(`ValueError("User already exists")`), otherwise insert a new row whose
key comes from `_generate_api_key` and whose counters start at 0.
`hash_password` is the abstract `hashP`. -/
def create_user (hashP : String → String) (cands : Nat → String) (fuel : Nat)
    (db : List DBUser) (email password : String) :
    Except String (List DBUser × DBUser) :=
  if (db.find? (fun u => u.email == email)).isSome then
    Except.error "User already exists"
  else
    match generate_api_key cands db fuel with
    | none => Except.error "fuel exhausted"
    | some key =>
      let u : DBUser := ⟨email, hashP password, key, 0, 0⟩
      Except.ok (db ++ [u], u)

/-- Overwrite the `api_key` of the first row with the given email
(the ORM row update in `regenerate_api_key`). -/
def set_api_key : List DBUser → String → String → List DBUser
  | [], _, _ => []
  | u :: us, email, key =>
    if u.email = email then { u with api_key := key } :: us
    else u :: set_api_key us email key

/-- Function `regenerate_api_key(email)`: `ValueError("User not found")` for an
unknown email; otherwise draw a fresh unique key (checked against every
row, the user's own included), store it and return it. -/
def regenerate_api_key (cands : Nat → String) (fuel : Nat)
    (db : List DBUser) (email : String) :
    Except String (List DBUser × String) :=
  match db.find? (fun u => u.email == email) with
  | none => Except.error "User not found"
  | some _ =>
    match generate_api_key cands db fuel with
    | none => Except.error "fuel exhausted"
    | some key => Except.ok (set_api_key db email key, key)

/-- Function `increment_usage(email, edits)`: silently return when the email is
unknown, otherwise add `edits` to both counters of the first matching
row. -/
def increment_usage : List DBUser → String → Nat → List DBUser
  | [], _, _ => []
  | u :: us, email, edits =>
    if u.email = email then
      { u with monthly_edits := u.monthly_edits + edits,
               total_edits := u.total_edits + edits } :: us
    else u :: increment_usage us email edits

/-- The downstream automation service as `trigger_automation` sees it:
an HTTP response with some status code, or `httpx` raising
(unreachable / timeout). -/
inductive Downstream where
  | response (status_code : Nat)
  | unreachable
deriving DecidableEq

/-- Function `trigger_automation` of `app/integrations/automation_client.py`: `True`
exactly for an HTTP 200 response; any exception is caught and yields
`False`.  It never raises. -/
def trigger_automation : Downstream → Bool
  | Downstream.response c => c == 200
  | Downstream.unreachable => false

/-- The JSON body `POST /automation/run` returns. -/
structure RunResponse where
  status : String
  automationResponse : Bool
deriving DecidableEq

/-- Handler `automation_run` of `app/main.py` (`POST /automation/run`): call the automation service with the
user's key, then increment the authenticated user's usage by 1 —
unconditionally, whatever the downstream outcome — and return
`{"status": "started", "automationResponse": result}`. -/
def automation_run (db : List DBUser) (email : String) (d : Downstream) :
    List DBUser × RunResponse :=
  let result := trigger_automation d
  let db2 := increment_usage db email 1
  (db2, ⟨"started", result⟩)

/-! ## Lemmas: text layout -/

theorem wrapStep_fst (width : String → Nat) (maxWidth : Nat)
    (lines : List String) (current w : String) :
    (wrapStep width maxWidth lines current w).1 = lines ∨
      (wrapStep width maxWidth lines current w).1 = lines ++ [current] := by
  unfold wrapStep
  dsimp only
  split_ifs with h1 h2
  · left; rfl
  · left; rfl
  · right; rfl

theorem greedyLoop_fst_append (width : String → Nat) (maxWidth : Nat) :
    ∀ (ws lines : List String) (current : String),
      ∃ t, (greedyLoop width maxWidth ws lines current).1 = lines ++ t := by
  intro ws
  induction ws with
  | nil => intro lines current; exact ⟨[], by simp [greedyLoop]⟩
  | cons w ws ih =>
    intro lines current
    rw [greedyLoop]
    rcases wrapStep_fst width maxWidth lines current w with h | h
    · obtain ⟨t, ht⟩ := ih (wrapStep width maxWidth lines current w).1
        (wrapStep width maxWidth lines current w).2
      exact ⟨t, by rw [ht, h]⟩
    · obtain ⟨t, ht⟩ := ih (wrapStep width maxWidth lines current w).1
        (wrapStep width maxWidth lines current w).2
      exact ⟨[current] ++ t, by rw [ht, h, List.append_assoc]⟩

theorem splitLoop_take_greedyLoop (width : String → Nat) (maxWidth : Nat) :
    ∀ (ws lines : List String) (current : String), lines.length < 2 →
      ((if (splitLoop width maxWidth ws lines current).2 ≠ "" ∧
            (splitLoop width maxWidth ws lines current).1.length < 2 then
          (splitLoop width maxWidth ws lines current).1 ++
            [(splitLoop width maxWidth ws lines current).2]
        else (splitLoop width maxWidth ws lines current).1).take 2) =
      ((if (greedyLoop width maxWidth ws lines current).2 ≠ "" then
          (greedyLoop width maxWidth ws lines current).1 ++
            [(greedyLoop width maxWidth ws lines current).2]
        else (greedyLoop width maxWidth ws lines current).1).take 2) := by
  intro ws
  induction ws with
  | nil =>
    intro lines current h
    simp only [splitLoop, greedyLoop, h, and_true]
  | cons w ws ih =>
    intro lines current h
    rw [splitLoop, greedyLoop]
    have hlen : (wrapStep width maxWidth lines current w).1.length ≤
        lines.length + 1 := by
      rcases wrapStep_fst width maxWidth lines current w with h1 | h1 <;>
        simp [h1]
    by_cases h2 : (wrapStep width maxWidth lines current w).1.length = 2
    · rw [if_pos h2]
      obtain ⟨t, ht⟩ := greedyLoop_fst_append width maxWidth ws
        (wrapStep width maxWidth lines current w).1
        (wrapStep width maxWidth lines current w).2
      have hTake : ∀ l : List String,
          ((wrapStep width maxWidth lines current w).1 ++ l).take 2 =
            (wrapStep width maxWidth lines current w).1 :=
        fun l => List.take_left' h2
      rw [if_neg (by omega : ¬((wrapStep width maxWidth lines current w).2 ≠ "" ∧
        (wrapStep width maxWidth lines current w).1.length < 2))]
      split
      · rw [ht, List.append_assoc, hTake, List.take_of_length_le (le_of_eq h2)]
      · rw [ht, hTake, List.take_of_length_le (le_of_eq h2)]
    · rw [if_neg h2]
      exact ih _ _ (by omega)

theorem split_two_lines_length_le (width : String → Nat) (text : String)
    (maxWidth : Nat) : (split_two_lines width text maxWidth).length ≤ 2 := by
  unfold split_two_lines
  exact List.length_take_le 2 _

theorem split_two_lines_eq_take_greedy (width : String → Nat) (text : String)
    (maxWidth : Nat) :
    split_two_lines width text maxWidth =
      (greedy_wrap width text maxWidth).take 2 := by
  unfold split_two_lines greedy_wrap
  exact splitLoop_take_greedyLoop width maxWidth (pySplitSpace text) [] ""
    (by simp)

/-! ## Claims C1 and C2 -/

/-- C1 (counterexample).  With the width metric `String.length` and
`max_width = 2`, the text `"aa bb cc"` needs a third line; the claim says
the two returned lines then still carry every word, but the code breaks
out of its loop after closing the second line and drops `"cc"`. -/
theorem C1_counterexample_word_dropped :
    ¬ ((split_two_lines String.length "aa bb cc" 2).length ≤ 2 ∧
      ∀ w ∈ pySplitSpace "aa bb cc",
        ∃ l ∈ split_two_lines String.length "aa bb cc" 2,
          w ∈ pySplitSpace l) := by
  decide

/-- C1 (amended): `split_two_lines` returns at most two lines, and equals
the first two lines of the uncapped greedy wrap: when the text would need a
third line, the words beyond the second line are dropped (truncation) —
they are not forced onto the second line. -/
theorem C1_split_two_lines_truncates (width : String → Nat) (text : String)
    (maxWidth : Nat) :
    (split_two_lines width text maxWidth).length ≤ 2 ∧
      split_two_lines width text maxWidth =
        (greedy_wrap width text maxWidth).take 2 :=
  ⟨split_two_lines_length_le width text maxWidth,
    split_two_lines_eq_take_greedy width text maxWidth⟩

/-- C2 (counterexample).  A one-word price text whose rendered width at the
larger font (modelled by `fun s => 100 * s.length`) exceeds the badge's
usable width `max_w = 150` still wraps to a single line, so `compose_image`
keeps the larger font — the claim's premise (width overflow) does not force
the smaller font. -/
theorem C2_counterexample_wide_single_word :
    100 * String.length "$1999" > max_w ∧
      (compose_price_layout (fun s => 100 * s.length)
        (fun s => 50 * s.length) "$1999").1 = false := by
  decide

/-- C2 (amended): `compose_image` selects the smaller font exactly when the
two-line split at the larger font closes two lines (the text wraps at the
larger size) — not whenever the rendered width exceeds the usable width —
and in that case it lays the text out by re-wrapping with the smaller
font; the resulting layout never has more than two lines. -/
theorem C2_font_fallback (widthMain widthSmall : String → Nat)
    (price_text : String) :
    ((compose_price_layout widthMain widthSmall price_text).1 = true ↔
      (split_two_lines widthMain price_text max_w).length = 2) ∧
    ((split_two_lines widthMain price_text max_w).length = 2 →
      (compose_price_layout widthMain widthSmall price_text).2 =
        split_two_lines widthSmall price_text max_w) ∧
    (compose_price_layout widthMain widthSmall price_text).2.length ≤ 2 := by
  refine ⟨?_, ?_, ?_⟩
  · simp [compose_price_layout]
  · intro h
    simp [compose_price_layout, h]
  · unfold compose_price_layout
    exact split_two_lines_length_le _ _ _

/-! ## Lemmas: the row processor -/

theorem process_rows_writes_shape (cf uf : Nat → Bool) (base : String) :
    ∀ (rows : List SheetRow) (i : Nat) (w : CellWrite),
      w ∈ (process_rows cf uf base rows i).2 →
      i ≤ w.rowIndex ∧ w.col = OUTPUT_COL ∧
        w.value = base ++ "/images/edited/" ++ ("edited_" ++
          toString w.rowIndex ++ ".png") := by
  intro rows
  induction rows with
  | nil => intro i w hw; simp [process_rows] at hw
  | cons row rest ih =>
    intro i w hw
    rw [process_rows] at hw
    dsimp only at hw
    split_ifs at hw with h0 h1 h2
    · have := ih (i + 1) w hw
      exact ⟨by omega, this.2⟩
    · have := ih (i + 1) w hw
      exact ⟨by omega, this.2⟩
    · have := ih (i + 1) w hw
      exact ⟨by omega, this.2⟩
    · rcases List.mem_cons.mp hw with h | h
      · subst h; exact ⟨le_refl i, rfl, by dsimp only⟩
      · have := ih (i + 1) w h
        exact ⟨by omega, this.2⟩

theorem process_rows_calls_shape (cf uf : Nat → Bool) (base : String) :
    ∀ (rows : List SheetRow) (i : Nat) (c : ComposeCall),
      c ∈ (process_rows cf uf base rows i).1 →
      i ≤ c.rowIndex ∧
        c.outputPath = "images/edited/" ++ ("edited_" ++
          toString c.rowIndex ++ ".png") := by
  intro rows
  induction rows with
  | nil => intro i c hc; simp [process_rows] at hc
  | cons row rest ih =>
    intro i c hc
    rw [process_rows] at hc
    dsimp only at hc
    split_ifs at hc with h0 h1 h2
    · have := ih (i + 1) c hc
      exact ⟨by omega, this.2⟩
    · rcases List.mem_cons.mp hc with h | h
      · subst h; exact ⟨le_refl i, by dsimp only⟩
      · have := ih (i + 1) c h
        exact ⟨by omega, this.2⟩
    · rcases List.mem_cons.mp hc with h | h
      · subst h; exact ⟨le_refl i, by dsimp only⟩
      · have := ih (i + 1) c h
        exact ⟨by omega, this.2⟩
    · rcases List.mem_cons.mp hc with h | h
      · subst h; exact ⟨le_refl i, by dsimp only⟩
      · have := ih (i + 1) c h
        exact ⟨by omega, this.2⟩

theorem process_rows_write_mem (cf uf : Nat → Bool) (base : String) :
    ∀ (rows : List SheetRow) (i j : Nat) (row : SheetRow),
      rows[j]? = some row → row.imageUrl ≠ "" →
      cf (i + j) = false → uf (i + j) = false →
      (⟨i + j, OUTPUT_COL, base ++ "/images/edited/" ++ ("edited_" ++
          toString (i + j) ++ ".png")⟩ : CellWrite) ∈
        (process_rows cf uf base rows i).2 := by
  intro rows
  induction rows with
  | nil => intro i j row hg; simp at hg
  | cons row0 rest ih =>
    intro i j row hg hurl hcf huf
    cases j with
    | zero =>
      rw [List.getElem?_cons_zero] at hg
      injection hg with hg; subst hg
      rw [process_rows]
      dsimp only
      rw [if_neg hurl]
      simp only [Nat.add_zero] at hcf huf ⊢
      rw [if_neg (by simp [hcf]), if_neg (by simp [huf])]
      dsimp only
      exact List.mem_cons_self _ _
    | succ k =>
      rw [List.getElem?_cons_succ] at hg
      have hmem := ih (i + 1) k row hg hurl
        (by rw [show i + 1 + k = i + (k + 1) by omega]; exact hcf)
        (by rw [show i + 1 + k = i + (k + 1) by omega]; exact huf)
      rw [show i + 1 + k = i + (k + 1) by omega] at hmem
      rw [process_rows]
      dsimp only
      split_ifs with h0 h1 h2
      · exact hmem
      · dsimp only; exact hmem
      · dsimp only; exact hmem
      · dsimp only; exact List.mem_cons_of_mem _ hmem

theorem process_rows_call_mem (cf uf : Nat → Bool) (base : String) :
    ∀ (rows : List SheetRow) (i j : Nat) (row : SheetRow),
      rows[j]? = some row → row.imageUrl ≠ "" →
      (⟨i + j, row.imageUrl, row.priceText, "images/edited/" ++ ("edited_" ++
          toString (i + j) ++ ".png")⟩ : ComposeCall) ∈
        (process_rows cf uf base rows i).1 := by
  intro rows
  induction rows with
  | nil => intro i j row hg; simp at hg
  | cons row0 rest ih =>
    intro i j row hg hurl
    cases j with
    | zero =>
      rw [List.getElem?_cons_zero] at hg
      injection hg with hg; subst hg
      rw [process_rows]
      dsimp only
      rw [if_neg hurl]
      simp only [Nat.add_zero]
      split_ifs with h1 h2
      · dsimp only; exact List.mem_cons_self _ _
      · dsimp only; exact List.mem_cons_self _ _
      · dsimp only; exact List.mem_cons_self _ _
    | succ k =>
      rw [List.getElem?_cons_succ] at hg
      have hmem := ih (i + 1) k row hg hurl
      rw [show i + 1 + k = i + (k + 1) by omega] at hmem
      rw [process_rows]
      dsimp only
      split_ifs with h0 h1 h2
      · exact hmem
      · dsimp only; exact List.mem_cons_of_mem _ hmem
      · dsimp only; exact List.mem_cons_of_mem _ hmem
      · dsimp only; exact List.mem_cons_of_mem _ hmem

theorem process_rows_skip (cf uf : Nat → Bool) (base : String) :
    ∀ (rows : List SheetRow) (i j : Nat) (row : SheetRow),
      rows[j]? = some row → row.imageUrl = "" →
      (∀ c ∈ (process_rows cf uf base rows i).1, c.rowIndex ≠ i + j) ∧
      (∀ w ∈ (process_rows cf uf base rows i).2, w.rowIndex ≠ i + j) := by
  intro rows
  induction rows with
  | nil => intro i j row hg; simp at hg
  | cons row0 rest ih =>
    intro i j row hg hurl
    cases j with
    | zero =>
      rw [List.getElem?_cons_zero] at hg
      injection hg with hg; subst hg
      constructor
      · intro c hc
        rw [process_rows] at hc
        dsimp only at hc
        rw [if_pos hurl] at hc
        have := (process_rows_calls_shape cf uf base rest (i + 1) c hc).1
        omega
      · intro w hw
        rw [process_rows] at hw
        dsimp only at hw
        rw [if_pos hurl] at hw
        have := (process_rows_writes_shape cf uf base rest (i + 1) w hw).1
        omega
    | succ k =>
      rw [List.getElem?_cons_succ] at hg
      have hrec := ih (i + 1) k row hg hurl
      rw [show i + 1 + k = i + (k + 1) by omega] at hrec
      constructor
      · intro c hc
        rw [process_rows] at hc
        dsimp only at hc
        split_ifs at hc with h0 h1 h2
        · exact hrec.1 c hc
        · rcases List.mem_cons.mp hc with h | h
          · subst h; dsimp only; omega
          · exact hrec.1 c h
        · rcases List.mem_cons.mp hc with h | h
          · subst h; dsimp only; omega
          · exact hrec.1 c h
        · rcases List.mem_cons.mp hc with h | h
          · subst h; dsimp only; omega
          · exact hrec.1 c h
      · intro w hw
        rw [process_rows] at hw
        dsimp only at hw
        split_ifs at hw with h0 h1 h2
        · exact hrec.2 w hw
        · exact hrec.2 w hw
        · exact hrec.2 w hw
        · rcases List.mem_cons.mp hw with h | h
          · subst h; dsimp only; omega
          · exact hrec.2 w h

/-! ## Claims C3, C4 and C7 -/

/-- C3: a row's failure never aborts the batch.  Whatever rows the
compose/update failure oracles make raise, every row `j` (0-based; sheet
row `j + 1`) that has a non-empty image URL and whose own two steps do not
raise still gets its output cell written with its public URL. -/
theorem C3_row_failure_isolated (cf uf : Nat → Bool) (rows : List SheetRow)
    (base : String) (j : Nat) (row : SheetRow)
    (hrow : rows[j]? = some row) (hurl : row.imageUrl ≠ "")
    (hcf : cf (j + 1) = false) (huf : uf (j + 1) = false) :
    (⟨j + 1, OUTPUT_COL, base ++ "/images/edited/" ++ ("edited_" ++
        toString (j + 1) ++ ".png")⟩ : CellWrite) ∈
      (process_sheet cf uf rows base).2 := by
  have := process_rows_write_mem cf uf base rows 1 j row hrow hurl
    (by rw [Nat.add_comm]; exact hcf) (by rw [Nat.add_comm]; exact huf)
  rw [Nat.add_comm] at this
  exact this

/-- C3 (witness): in a five-row sheet where composition of sheet row 3
raises, sheet row 4 is still processed and its cell written. -/
theorem C3_row_failure_isolated_witness :
    (⟨4, OUTPUT_COL, "http://b" ++ "/images/edited/" ++ ("edited_" ++
        toString 4 ++ ".png")⟩ : CellWrite) ∈
      (process_sheet (fun i => i == 3) (fun _ => false)
        [⟨"imgA", "$1"⟩, ⟨"imgB", "$2"⟩, ⟨"imgC", "$3"⟩, ⟨"imgD", "$4"⟩,
          ⟨"imgE", "$5"⟩] "http://b").2 :=
  C3_row_failure_isolated (fun i => i == 3) (fun _ => false)
    [⟨"imgA", "$1"⟩, ⟨"imgB", "$2"⟩, ⟨"imgC", "$3"⟩, ⟨"imgD", "$4"⟩,
      ⟨"imgE", "$5"⟩] "http://b" 3 ⟨"imgD", "$4"⟩ rfl
    (by decide) rfl rfl

/-- C4: a row whose image-URL field is empty is never passed to the
compositor and its output cell is never written: no recorded
`compose_image` call and no recorded `update_cell` write carries that
row's index. -/
theorem C4_empty_url_untouched (cf uf : Nat → Bool) (rows : List SheetRow)
    (base : String) (j : Nat) (row : SheetRow)
    (hrow : rows[j]? = some row) (hurl : row.imageUrl = "") :
    (∀ c ∈ (process_sheet cf uf rows base).1, c.rowIndex ≠ j + 1) ∧
    (∀ w ∈ (process_sheet cf uf rows base).2, w.rowIndex ≠ j + 1) := by
  have := process_rows_skip cf uf base rows 1 j row hrow hurl
  rw [Nat.add_comm] at this
  exact this

/-- C4 (witness): in a three-row sheet whose second row has an empty image
URL, no compose call and no cell write is recorded for sheet row 2. -/
theorem C4_empty_url_untouched_witness :
    (∀ c ∈ (process_sheet (fun _ => false) (fun _ => false)
        [⟨"imgA", "$19.99"⟩, ⟨"", "$5"⟩, ⟨"imgB", "$100"⟩] "http://b").1,
      c.rowIndex ≠ 2) ∧
    (∀ w ∈ (process_sheet (fun _ => false) (fun _ => false)
        [⟨"imgA", "$19.99"⟩, ⟨"", "$5"⟩, ⟨"imgB", "$100"⟩] "http://b").2,
      w.rowIndex ≠ 2) :=
  C4_empty_url_untouched (fun _ => false) (fun _ => false)
    [⟨"imgA", "$19.99"⟩, ⟨"", "$5"⟩, ⟨"imgB", "$100"⟩] "http://b" 1
    ⟨"", "$5"⟩ rfl rfl

/-- C7: a successfully processed row `j` (sheet row `j + 1`) gets exactly
one cell write, in column 3, whose value is
`<BASE_URL>/images/edited/edited_<j+1>.png`, and the compositor is invoked
for it with output path `images/edited/edited_<j+1>.png`. -/
theorem C7_output_path_and_public_url (cf uf : Nat → Bool)
    (rows : List SheetRow) (base : String) (j : Nat) (row : SheetRow)
    (hrow : rows[j]? = some row) (hurl : row.imageUrl ≠ "")
    (hcf : cf (j + 1) = false) (huf : uf (j + 1) = false) :
    ((⟨j + 1, row.imageUrl, row.priceText, "images/edited/" ++ ("edited_" ++
        toString (j + 1) ++ ".png")⟩ : ComposeCall) ∈
      (process_sheet cf uf rows base).1) ∧
    ((⟨j + 1, OUTPUT_COL, base ++ "/images/edited/" ++ ("edited_" ++
        toString (j + 1) ++ ".png")⟩ : CellWrite) ∈
      (process_sheet cf uf rows base).2) ∧
    (∀ w ∈ (process_sheet cf uf rows base).2, w.rowIndex = j + 1 →
      w = ⟨j + 1, OUTPUT_COL, base ++ "/images/edited/" ++ ("edited_" ++
        toString (j + 1) ++ ".png")⟩) := by
  refine ⟨?_, ?_, ?_⟩
  · have := process_rows_call_mem cf uf base rows 1 j row hrow hurl
    rw [Nat.add_comm] at this
    exact this
  · have := process_rows_write_mem cf uf base rows 1 j row hrow hurl
      (by rw [Nat.add_comm]; exact hcf) (by rw [Nat.add_comm]; exact huf)
    rw [Nat.add_comm] at this
    exact this
  · intro w hw hidx
    obtain ⟨h1, h2, h3⟩ := process_rows_writes_shape cf uf base rows 1 w hw
    cases w
    dsimp only at hidx h2 h3
    subst hidx
    subst h2
    subst h3
    rfl

/-- C7 (witness): the spec's three-row example sheet — row 3 (`imgB`)
yields the compose call for `images/edited/edited_3.png` and exactly the
write `<base>/images/edited/edited_3.png` in column 3. -/
theorem C7_output_path_and_public_url_witness :
    ((⟨3, "imgB", "$100", "images/edited/" ++ ("edited_" ++
        toString 3 ++ ".png")⟩ : ComposeCall) ∈
      (process_sheet (fun _ => false) (fun _ => false)
        [⟨"imgA", "$19.99"⟩, ⟨"", "$5"⟩, ⟨"imgB", "$100"⟩] "http://b").1) ∧
    ((⟨3, OUTPUT_COL, "http://b" ++ "/images/edited/" ++ ("edited_" ++
        toString 3 ++ ".png")⟩ : CellWrite) ∈
      (process_sheet (fun _ => false) (fun _ => false)
        [⟨"imgA", "$19.99"⟩, ⟨"", "$5"⟩, ⟨"imgB", "$100"⟩] "http://b").2) ∧
    (∀ w ∈ (process_sheet (fun _ => false) (fun _ => false)
        [⟨"imgA", "$19.99"⟩, ⟨"", "$5"⟩, ⟨"imgB", "$100"⟩] "http://b").2,
      w.rowIndex = 3 →
      w = ⟨3, OUTPUT_COL, "http://b" ++ "/images/edited/" ++ ("edited_" ++
        toString 3 ++ ".png")⟩) :=
  C7_output_path_and_public_url (fun _ => false) (fun _ => false)
    [⟨"imgA", "$19.99"⟩, ⟨"", "$5"⟩, ⟨"imgB", "$100"⟩] "http://b" 2
    ⟨"imgB", "$100"⟩ rfl (by decide) rfl rfl

/-! ## Lemmas: users, usage and API keys -/

theorem increment_usage_find (email : String) (n : Nat) :
    ∀ (db : List DBUser) (u : DBUser),
      db.find? (fun v => v.email == email) = some u →
      (increment_usage db email n).find? (fun v => v.email == email) =
        some { u with monthly_edits := u.monthly_edits + n,
                      total_edits := u.total_edits + n } := by
  intro db
  induction db with
  | nil => intro u hu; simp at hu
  | cons v vs ih =>
    intro u hu
    by_cases h : v.email = email
    · rw [List.find?_cons_of_pos _ (by simp [h])] at hu
      injection hu with hu; subst hu
      rw [increment_usage, if_pos h]
      exact List.find?_cons_of_pos _ (by simp [h])
    · rw [List.find?_cons_of_neg _ (by simp [h])] at hu
      rw [increment_usage, if_neg h]
      rw [List.find?_cons_of_neg _ (by simp [h])]
      exact ih u hu

theorem genKeyAux_fresh (cands : Nat → String) (db : List DBUser) :
    ∀ (fuel i : Nat) (k : String), genKeyAux cands db i fuel = some k →
      ∀ u ∈ db, u.api_key ≠ k := by
  intro fuel
  induction fuel with
  | zero => intro i k h; simp [genKeyAux] at h
  | succ n ih =>
    intro i k h
    rw [genKeyAux] at h
    by_cases hc : db.any (fun u => u.api_key == cands i) = true
    · rw [if_pos hc] at h
      exact ih (i + 1) k h
    · rw [if_neg hc] at h
      injection h with h; subst h
      intro u hu
      simp only [List.any_eq_true, not_exists, not_and] at hc
      push_neg at hc
      have := hc u hu
      simpa using this

theorem genKeyAux_success (cands : Nat → String) (db : List DBUser) :
    ∀ (fuel i : Nat),
      (∃ j, j < fuel ∧ ∀ u ∈ db, u.api_key ≠ cands (i + j)) →
      ∃ k, genKeyAux cands db i fuel = some k := by
  intro fuel
  induction fuel with
  | zero => intro i ⟨j, hj, _⟩; omega
  | succ n ih =>
    intro i ⟨j, hj, hfresh⟩
    rw [genKeyAux]
    by_cases hc : db.any (fun u => u.api_key == cands i) = true
    · rw [if_pos hc]
      simp only [List.any_eq_true] at hc
      obtain ⟨u, hu, hk⟩ := hc
      have hkey : u.api_key = cands i := by simpa using hk
      cases j with
      | zero =>
        exact absurd hkey (hfresh u hu)
      | succ m =>
        refine ih (i + 1) ⟨m, by omega, ?_⟩
        intro v hv
        have := hfresh v hv
        rw [show i + 1 + m = i + (m + 1) by omega]
        exact this
    · rw [if_neg hc]
      exact ⟨cands i, rfl⟩

theorem set_api_key_mem_keys (email key : String) :
    ∀ (db : List DBUser) (x : String),
      x ∈ (set_api_key db email key).map (fun u => u.api_key) →
      x ∈ db.map (fun u => u.api_key) ∨ x = key := by
  intro db
  induction db with
  | nil => intro x hx; simp [set_api_key] at hx
  | cons v vs ih =>
    intro x hx
    rw [set_api_key] at hx
    by_cases h : v.email = email
    · rw [if_pos h] at hx
      rcases List.mem_map.mp hx with ⟨u, hu, hux⟩
      rcases List.mem_cons.mp hu with h1 | h1
      · subst h1; right; exact hux.symm
      · left; exact List.mem_map.mpr ⟨u, List.mem_cons_of_mem _ h1, hux⟩
    · rw [if_neg h] at hx
      rcases List.mem_map.mp hx with ⟨u, hu, hux⟩
      rcases List.mem_cons.mp hu with h1 | h1
      · subst h1; left; exact List.mem_map.mpr ⟨u, List.mem_cons_self _ _, hux⟩
      · rcases ih x (List.mem_map.mpr ⟨u, h1, hux⟩) with h2 | h2
        · left; simp only [List.map_cons, List.mem_cons]; right; exact h2
        · right; exact h2

theorem set_api_key_nodup (email key : String) :
    ∀ db : List DBUser,
      (db.map (fun u => u.api_key)).Nodup →
      (∀ u ∈ db, u.api_key ≠ key) →
      ((set_api_key db email key).map (fun u => u.api_key)).Nodup := by
  intro db
  induction db with
  | nil => intro _ _; simp [set_api_key]
  | cons v vs ih =>
    intro hnd hfresh
    rw [List.map_cons, List.nodup_cons] at hnd
    rw [set_api_key]
    by_cases h : v.email = email
    · rw [if_pos h]
      rw [List.map_cons, List.nodup_cons]
      refine ⟨?_, hnd.2⟩
      intro hk
      rcases List.mem_map.mp hk with ⟨u, hu, hux⟩
      exact hfresh u (List.mem_cons_of_mem _ hu) hux
    · rw [if_neg h]
      rw [List.map_cons, List.nodup_cons]
      refine ⟨?_, ih hnd.2 (fun u hu => hfresh u (List.mem_cons_of_mem _ hu))⟩
      intro hk
      rcases set_api_key_mem_keys email key vs v.api_key hk with h2 | h2
      · exact hnd.1 h2
      · exact hfresh v (List.mem_cons_self _ _) h2

/-! ## Claims C8 and C9 -/

/-- C8: every authenticated `POST /automation/run` increments the user's
usage counters by 1, whatever the downstream automation call does (200,
non-200 or unreachable); the response always carries
`status = "started"`, and its `automationResponse` field is the
downstream success flag — `false` exactly when the downstream call failed,
which is how the failure is surfaced to the triggering caller. -/
theorem C8_usage_incremented_regardless (db : List DBUser) (email : String)
    (d : Downstream) (u : DBUser)
    (hu : db.find? (fun v => v.email == email) = some u) :
    ((automation_run db email d).1.find? (fun v => v.email == email) =
      some { u with monthly_edits := u.monthly_edits + 1,
                    total_edits := u.total_edits + 1 }) ∧
    (automation_run db email d).2.status = "started" ∧
    ((automation_run db email d).2.automationResponse = true ↔
      d = Downstream.response 200) := by
  refine ⟨increment_usage_find email 1 db u hu, rfl, ?_⟩
  cases d with
  | response c =>
    simp only [automation_run, trigger_automation]
    constructor
    · intro h
      have : c = 200 := by simpa using h
      rw [this]
    · intro h
      injection h with h
      simp [h]
  | unreachable =>
    simp [automation_run, trigger_automation]

/-- C8 (witness): a one-user database, downstream unreachable — the
counters still go from (5, 7) to (6, 8) and the caller sees
`automationResponse = false`. -/
theorem C8_usage_incremented_regardless_witness :
    ((automation_run [⟨"a@x", "h", "k1", 5, 7⟩] "a@x"
        Downstream.unreachable).1.find? (fun v => v.email == "a@x") =
      some ⟨"a@x", "h", "k1", 6, 8⟩) ∧
    (automation_run [⟨"a@x", "h", "k1", 5, 7⟩] "a@x"
        Downstream.unreachable).2.status = "started" ∧
    ((automation_run [⟨"a@x", "h", "k1", 5, 7⟩] "a@x"
        Downstream.unreachable).2.automationResponse = true ↔
      Downstream.unreachable = Downstream.response 200) :=
  C8_usage_incremented_regardless [⟨"a@x", "h", "k1", 5, 7⟩] "a@x"
    Downstream.unreachable ⟨"a@x", "h", "k1", 5, 7⟩ rfl

/-- C9: API-key generation and regeneration preserve global key
uniqueness.  (1) Any key the retry loop returns collides with no existing
row; (2) when some candidate within the fuel bound is fresh, the loop
returns a key (a collision only makes it retry — it is never surfaced as
an error); (3) starting from pairwise-distinct keys, a successful
`create_user` or `regenerate_api_key` leaves the table's keys
pairwise-distinct, and the stored key differs from every pre-existing
row's key. -/
theorem C9_api_key_uniqueness (hashP : String → String)
    (cands : Nat → String) (fuel : Nat) (db : List DBUser)
    (email password : String) :
    (∀ k, generate_api_key cands db fuel = some k →
      ∀ u ∈ db, u.api_key ≠ k) ∧
    ((∃ i, i < fuel ∧ ∀ u ∈ db, u.api_key ≠ cands i) →
      ∃ k, generate_api_key cands db fuel = some k) ∧
    ((db.map (fun u => u.api_key)).Nodup →
      (∀ db2 u, create_user hashP cands fuel db email password =
          Except.ok (db2, u) →
        ((db2.map (fun v => v.api_key)).Nodup ∧
          ∀ v ∈ db, v.api_key ≠ u.api_key)) ∧
      (∀ db2 k, regenerate_api_key cands fuel db email =
          Except.ok (db2, k) →
        ((db2.map (fun v => v.api_key)).Nodup ∧
          ∀ v ∈ db, v.api_key ≠ k))) := by
  refine ⟨?_, ?_, ?_⟩
  · intro k h
    exact genKeyAux_fresh cands db fuel 0 k h
  · intro ⟨i, hi, hfresh⟩
    exact genKeyAux_success cands db fuel 0 ⟨i, hi, by simpa using hfresh⟩
  · intro hnd
    constructor
    · intro db2 u hok
      unfold create_user at hok
      split_ifs at hok with hex
      cases hgen : generate_api_key cands db fuel with
      | none => rw [hgen] at hok; exact absurd hok (by simp)
      | some key =>
        rw [hgen] at hok
        dsimp only at hok
        injection hok with hok
        injection hok with hdb hu
        subst hdb; subst hu
        have hfresh := genKeyAux_fresh cands db fuel 0 key hgen
        constructor
        · rw [List.map_append]
          rw [List.nodup_append]
          refine ⟨hnd, by simp, ?_⟩
          intro x hx hx2
          rcases List.mem_map.mp hx with ⟨v, hv, hvx⟩
          have : x = key := by simpa using hx2
          subst this
          exact hfresh v hv hvx
        · intro v hv
          exact hfresh v hv
    · intro db2 k hok
      unfold regenerate_api_key at hok
      cases hfind : db.find? (fun u => u.email == email) with
      | none => rw [hfind] at hok; exact absurd hok (by simp)
      | some u0 =>
        rw [hfind] at hok
        dsimp only at hok
        cases hgen : generate_api_key cands db fuel with
        | none => rw [hgen] at hok; exact absurd hok (by simp)
        | some key =>
          rw [hgen] at hok
          dsimp only at hok
          injection hok with hok
          injection hok with hdb hk
          subst hdb; subst hk
          have hfresh := genKeyAux_fresh cands db fuel 0 key hgen
          exact ⟨set_api_key_nodup email key db hnd hfresh, hfresh⟩

/-! ## Lemmas: hexadecimal parsing and the contrast color -/

theorem hexVal_cases {c : Char} {v : Nat} (h : hexVal? c = some v) :
    (48 ≤ c.toNat ∧ c.toNat ≤ 57 ∧ v = c.toNat - 48) ∨
    (97 ≤ c.toNat ∧ c.toNat ≤ 102 ∧ v = c.toNat - 87) ∨
    (65 ≤ c.toNat ∧ c.toNat ≤ 70 ∧ v = c.toNat - 55) := by
  unfold hexVal? at h
  split_ifs at h with h1 h2 h3
  · exact Or.inl ⟨h1.1, h1.2, (Option.some.inj h).symm⟩
  · exact Or.inr (Or.inl ⟨h2.1, h2.2, (Option.some.inj h).symm⟩)
  · exact Or.inr (Or.inr ⟨h3.1, h3.2, (Option.some.inj h).symm⟩)

theorem pyIntHex_pair {c d : Char} {vc vd : Nat}
    (hc : hexVal? c = some vc) (hd : hexVal? d = some vd) :
    pyIntHex [c, d] = some ((16 * vc + vd : Nat) : Int) := by
  have hcr := hexVal_cases hc
  have hdr := hexVal_cases hd
  have hcs : isPySpace c = false := by
    simp only [isPySpace, Bool.or_eq_false_iff, decide_eq_false_iff_not]
    omega
  have hds : isPySpace d = false := by
    simp only [isPySpace, Bool.or_eq_false_iff, decide_eq_false_iff_not]
    omega
  have hstrip : pyStrip [c, d] = [c, d] := by
    simp [pyStrip, List.dropWhile_cons, hcs, hds]
  have hsign : pySign [c, d] = (1, [c, d]) := by
    rw [pySign]
    rw [if_neg (by omega), if_neg (by omega)]
  have h0x : py0x [c, d] = [c, d] := by
    rw [py0x]
    rw [if_neg (by omega)]
  have hdig : hexDigitsVal [c, d] none = some (vc * 16 + vd) := by
    simp [hexDigitsVal, hc, hd]
  unfold pyIntHex
  dsimp only
  rw [hstrip, hsign]
  dsimp only
  rw [h0x, hdig]
  dsimp only
  simp only [Option.some.injEq]
  push_cast
  ring

/-! ## Claims C5 and C10 -/

/-- C5: for a `#`-prefixed six-hex-digit badge color with components
`R = 16*v0 + v1`, `G = 16*v2 + v3`, `B = 16*v4 + v5`, the chosen text
color is `"black"` exactly when the luminance
`0.299·R + 0.587·G + 0.114·B` exceeds 160, and `"white"` otherwise; at
the boundary color `#A0A0A0` (luminance exactly 160) it is `"white"`. -/
theorem C5_contrast_color_by_luminance :
    (∀ c0 c1 c2 c3 c4 c5 : Char, ∀ v0 v1 v2 v3 v4 v5 : Nat,
      hexVal? c0 = some v0 → hexVal? c1 = some v1 →
      hexVal? c2 = some v2 → hexVal? c3 = some v3 →
      hexVal? c4 = some v4 → hexVal? c5 = some v5 →
      get_contrast_color (String.mk ['#', c0, c1, c2, c3, c4, c5]) =
        (if (299 / 1000 : ℚ) * ((16 * v0 + v1 : Nat) : ℚ) +
            (587 / 1000 : ℚ) * ((16 * v2 + v3 : Nat) : ℚ) +
            (114 / 1000 : ℚ) * ((16 * v4 + v5 : Nat) : ℚ) > 160 then
          "black" else "white")) ∧
    get_contrast_color "#A0A0A0" = "white" := by
  constructor
  · intro c0 c1 c2 c3 c4 c5 v0 v1 v2 v3 v4 v5 h0 h1 h2 h3 h4 h5
    have hne : ∀ (c : Char) (v : Nat), hexVal? c = some v →
        (c.toNat != 35) = true := by
      intro c v h
      have := hexVal_cases h
      simp only [bne_iff_ne, ne_eq]
      omega
    have hfil : (String.mk ['#', c0, c1, c2, c3, c4, c5]).data.filter
        (fun c => c.toNat != 35) = [c0, c1, c2, c3, c4, c5] := by
      simp only [List.filter]
      rw [show (('#'.toNat != 35) = false) from by decide] at *
      simp [List.filter, hne c0 v0 h0, hne c1 v1 h1, hne c2 v2 h2,
        hne c3 v3 h3, hne c4 v4 h4, hne c5 v5 h5]
    unfold get_contrast_color
    rw [hfil]
    dsimp only
    rw [if_neg (by simp)]
    have ht1 : [c0, c1, c2, c3, c4, c5].take 2 = [c0, c1] := rfl
    have ht2 : ([c0, c1, c2, c3, c4, c5].drop 2).take 2 = [c2, c3] := rfl
    have ht3 : ([c0, c1, c2, c3, c4, c5].drop 4).take 2 = [c4, c5] := rfl
    rw [ht1, ht2, ht3, pyIntHex_pair h0 h1, pyIntHex_pair h2 h3,
      pyIntHex_pair h4 h5]
    dsimp only
    have hiff : (((16 * v0 + v1 : Nat) : Int) * 299 +
        ((16 * v2 + v3 : Nat) : Int) * 587 +
        ((16 * v4 + v5 : Nat) : Int) * 114 > 160000) ↔
        ((299 / 1000 : ℚ) * ((16 * v0 + v1 : Nat) : ℚ) +
          (587 / 1000 : ℚ) * ((16 * v2 + v3 : Nat) : ℚ) +
          (114 / 1000 : ℚ) * ((16 * v4 + v5 : Nat) : ℚ) > 160) := by
      rw [gt_iff_lt, gt_iff_lt]
      rw [show (299 / 1000 : ℚ) * ((16 * v0 + v1 : Nat) : ℚ) +
          (587 / 1000 : ℚ) * ((16 * v2 + v3 : Nat) : ℚ) +
          (114 / 1000 : ℚ) * ((16 * v4 + v5 : Nat) : ℚ) =
          (((16 * v0 + v1 : Nat) : ℚ) * 299 +
            ((16 * v2 + v3 : Nat) : ℚ) * 587 +
            ((16 * v4 + v5 : Nat) : ℚ) * 114) / 1000 from by ring]
      rw [lt_div_iff₀ (by norm_num : (0 : ℚ) < 1000)]
      rw [show (160 : ℚ) * 1000 = 160000 from by norm_num]
      constructor
      · intro h
        exact_mod_cast h
      · intro h
        exact_mod_cast h
    exact if_congr hiff rfl rfl
  · decide

/-- C10 (counterexample).  `get_contrast_color` is total, but the claim's
second half is wrong: Python's `int(_, 16)` also accepts signs and
whitespace, so the six-character input `"ffff+f"` — not six hexadecimal
digits — parses as `(255, 255, 15)`, whose brightness 227.64 exceeds 160,
and the function returns `"black"`, not `"white"`. -/
theorem C10_counterexample_signed_component :
    sixHexAfterHash "ffff+f" = false ∧
      get_contrast_color "ffff+f" = "black" := by
  decide

/-- C10 (amended): `get_contrast_color` is total on strings and never
raises — it always returns `"black"` or `"white"` — and every input that,
after removing `#`, does not have exactly six characters yields `"white"`.
(A six-character non-hex input can still parse via `int(_, 16)`'s sign and
whitespace forms and yield `"black"`.) -/
theorem C10_contrast_color_total (s : String) :
    (get_contrast_color s = "black" ∨ get_contrast_color s = "white") ∧
    ((s.data.filter (fun c => c.toNat != 35)).length ≠ 6 →
      get_contrast_color s = "white") := by
  constructor
  · unfold get_contrast_color
    dsimp only
    split
    · exact Or.inr rfl
    · split
      · split
        · exact Or.inl rfl
        · exact Or.inr rfl
      · exact Or.inr rfl
  · intro h
    unfold get_contrast_color
    dsimp only
    rw [if_pos h]

/-! ## Claim C6 -/

/-- C6: for every anchor `(x, y)`, size, and trigonometric model, the
`starburst_15` case of `get_polygon_for_shape` is a polygon of exactly 30
vertices; vertex `i` sits at angle `(i / 30) * 2π` from the box center
`(x + size // 2, y + size // 2)`, at radius `size * 0.5` for even `i` and
`size * 0.35` for odd `i`. -/
theorem C6_starburst_thirty_vertices (cosf sinf : ℚ → ℚ) (pi : ℚ)
    (x y size : Int) :
    ∃ pts,
      get_polygon_for_shape cosf sinf pi "starburst_15" x y size =
        ShapeData.polygon pts ∧
      pts.length = 30 ∧
      ∀ i (h : i < pts.length),
        pts.get ⟨i, h⟩ =
          (((x + size.fdiv 2 : Int) : ℚ) +
            (if i % 2 = 0 then (size : ℚ) * (1 / 2)
              else (size : ℚ) * (35 / 100)) * cosf (((i : ℚ) / 30) * 2 * pi),
           ((y + size.fdiv 2 : Int) : ℚ) +
            (if i % 2 = 0 then (size : ℚ) * (1 / 2)
              else (size : ℚ) * (35 / 100)) * sinf (((i : ℚ) / 30) * 2 * pi)) := by
  refine ⟨(List.range 30).map (fun (i : Nat) =>
      (((x + size.fdiv 2 : Int) : ℚ) +
        (if i % 2 = 0 then (size : ℚ) * (1 / 2)
          else (size : ℚ) * (35 / 100)) * cosf (((i : ℚ) / 30) * 2 * pi),
       ((y + size.fdiv 2 : Int) : ℚ) +
        (if i % 2 = 0 then (size : ℚ) * (1 / 2)
          else (size : ℚ) * (35 / 100)) * sinf (((i : ℚ) / 30) * 2 * pi))),
    ?_, ?_, ?_⟩
  · unfold get_polygon_for_shape
    rw [if_neg (by decide), if_pos (by decide)]
  · simp
  · intro i h
    simp only [List.length_map, List.length_range] at h
    simp [List.get_eq_getElem, List.getElem_map, List.getElem_range]

end ImageModify

/-! ## Concrete evaluation checks

Small sanity evaluations of the embedded definitions on concrete inputs,
mirroring hand-traces of the Python code. -/

section EvaluationChecks
open ImageModify
example : pyIntHex "ff".data = some 255 := by decide
example : pyIntHex "+f".data = some 15 := by decide
example : pyIntHex "-f".data = some (-15) := by decide
example : pyIntHex " f".data = some 15 := by decide
example : pyIntHex "f ".data = some 15 := by decide
example : pyIntHex "0x".data = none := by decide
example : pyIntHex "xf".data = none := by decide
example : pyIntHex "_f".data = none := by decide
example : pyIntHex "f_".data = none := by decide
example : get_contrast_color "#A0A0A0" = "white" := by decide
example : get_contrast_color "#FFFFFF" = "black" := by decide
example : get_contrast_color "#A1A0A0" = "black" := by decide
example : get_contrast_color "ffff+f" = "black" := by decide
example : sixHexAfterHash "ffff+f" = false := by decide
example : pySplitSpace "aa bb cc" = ["aa", "bb", "cc"] := by decide
example : pySplitSpace "" = [""] := by decide
example : pyStripS " aa bb " = "aa bb" := by decide
example : split_two_lines String.length "aa bb cc" 2 = ["aa", "bb"] := by decide
example : split_two_lines String.length "aa bb cc" 5 = ["aa bb", "cc"] := by decide
example : split_two_lines String.length "aa bb cc" 8 = ["aa bb cc"] := by decide
example : greedy_wrap String.length "aa bb cc" 2 = ["aa", "bb", "cc"] := by decide
example : split_two_lines (fun s => 100 * s.length) "$1999" 150 = ["$1999"] := by decide
example : (compose_price_layout (fun s => 100 * s.length) (fun s => 50 * s.length) "$1999").1 = false := by decide
example : (compose_price_layout (fun s => 10 * s.length) (fun s => 5 * s.length) "hello world foobar").1 = true := by decide
example : pyLower "Starburst_15" = "starburst_15" := by decide
example : get_polygon_for_shape id id 0 "CIRCLE" 0 0 200 = ShapeData.circle 100 100 100 := by decide
example : get_polygon_for_shape id id 0 "nope" 0 0 200 = ShapeData.circle 100 100 100 := by decide
example : get_polygon_for_shape id id 0 "None" 0 0 200 = ShapeData.noShape := by decide
example :
    (process_sheet (fun i => i == 3) (fun _ => false)
      [⟨"imgA", "$19.99"⟩, ⟨"", "$5"⟩, ⟨"imgB", "$100"⟩] "http://b").2 =
    [⟨1, 3, "http://b/images/edited/edited_1.png"⟩] := by decide
example :
    (process_sheet (fun _ => false) (fun _ => false)
      [⟨"imgA", "$19.99"⟩, ⟨"", "$5"⟩, ⟨"imgB", "$100"⟩] "http://b").2 =
    [⟨1, 3, "http://b/images/edited/edited_1.png"⟩,
     ⟨3, 3, "http://b/images/edited/edited_3.png"⟩] := by decide
example :
    generate_api_key (fun i => if i = 0 then "k1" else "fresh")
      [⟨"a@x", "h", "k1", 0, 0⟩] 2 = some "fresh" := by decide
example :
    automation_run [⟨"a@x", "h", "k1", 5, 7⟩] "a@x" Downstream.unreachable =
    ([⟨"a@x", "h", "k1", 6, 8⟩], ⟨"started", false⟩) := by decide
end EvaluationChecks
